import Mathlib

/-!
Verification development for the jeth-lasa summarization service.

The route handlers live in `app/api/summaries/route.ts` (POST orchestrator,
GET listing) and `app/api/summary/[id]/route.ts` (DELETE).  JavaScript
strings are modelled as `List Char`; machine-independent data (counts,
lists of rows) as `Nat` / `List`.  External collaborators (the Gemini
model, `sharp`, the Prisma datastore, `JSON.parse`) are modelled as
oracles or as faithful executable models where their exact semantics is
load-bearing for a claim.
-/

namespace JethLasa

/-- Model of JavaScript `String.prototype.trim` over `List Char`
(whitespace stripped from both ends).  `Char.isWhitespace` covers the
characters that matter for text produced by the PDF extractor, which
already collapses every whitespace run to a single space. -/
def jsTrim (s : List Char) : List Char :=
  ((s.dropWhile Char.isWhitespace).reverse.dropWhile Char.isWhitespace).reverse

/-- Slicing loop of `chunkText` (route.ts line 215): successive
`t.slice(i, i + chunkSize)` windows.  The source loop does not terminate
for `chunkSize = 0`; every call site uses 9000, and this model returns
`[]` in that vacuous case. -/
def chunksOf (n : Nat) (l : List Char) : List (List Char) :=
  if h : l = [] then []
  else if h2 : n = 0 then []
  else l.take n :: chunksOf n (l.drop n)
termination_by l.length
decreasing_by
  have h1 : 0 < l.length := List.length_pos.mpr h
  have h3 : 0 < n := Nat.pos_of_ne_zero h2
  simp only [List.length_drop]
  omega

/-- `chunkText` (route.ts lines 211-217): trim the input, return `[]`
when nothing is left, otherwise slice into `chunkSize` windows. -/
def chunkText (s : List Char) (chunkSize : Nat) : List (List Char) :=
  chunksOf chunkSize (jsTrim s)

/-! ### JSON values and a model of JavaScript JSON.parse -/

/-- JSON value as produced by `JSON.parse`.  Number values are kept as
their source lexeme: the route only ever asks whether a value is a
string, an array or an object, so numeric semantics never matters. -/
inductive JValue where
  | null
  | bool (b : Bool)
  | num (lexeme : List Char)
  | str (s : List Char)
  | arr (elems : List JValue)
  | obj (fields : List (List Char × JValue))

/-- JSON insignificant whitespace. -/
def jsonWs (c : Char) : Bool :=
  c = ' ' || c = '\t' || c = '\n' || c = '\r'

def skipWs (l : List Char) : List Char :=
  l.dropWhile jsonWs

def jhexDigit (c : Char) : Option Nat :=
  if '0' ≤ c ∧ c ≤ '9' then some (c.toNat - '0'.toNat)
  else if 'a' ≤ c ∧ c ≤ 'f' then some (c.toNat - 'a'.toNat + 10)
  else if 'A' ≤ c ∧ c ≤ 'F' then some (c.toNat - 'A'.toNat + 10)
  else none

def jsonEscape (c : Char) : Option Char :=
  if c = '"' then some '"'
  else if c = '\\' then some '\\'
  else if c = '/' then some '/'
  else if c = 'b' then some (Char.ofNat 8)
  else if c = 'f' then some (Char.ofNat 12)
  else if c = 'n' then some '\n'
  else if c = 'r' then some '\r'
  else if c = 't' then some '\t'
  else none

/-- Body of a JSON string (after the opening quote), fuel-recursive. -/
def jstringBody : Nat → List Char → Option (List Char × List Char)
  | 0, _ => none
  | fuel + 1, input =>
    match input with
    | [] => none
    | '"' :: rest => some ([], rest)
    | '\\' :: 'u' :: h1 :: h2 :: h3 :: h4 :: r2 =>
      match jhexDigit h1, jhexDigit h2, jhexDigit h3, jhexDigit h4 with
      | some a, some b, some c, some d =>
        match jstringBody fuel r2 with
        | some (s, r3) =>
          some (Char.ofNat (((a * 16 + b) * 16 + c) * 16 + d) :: s, r3)
        | none => none
      | _, _, _, _ => none
    | '\\' :: e :: r2 =>
      match jsonEscape e with
      | some ec =>
        match jstringBody fuel r2 with
        | some (s, r3) => some (ec :: s, r3)
        | none => none
      | none => none
    | c :: rest =>
      if c.toNat < 32 then none
      else
        match jstringBody fuel rest with
        | some (s, r2) => some (c :: s, r2)
        | none => none

/-- JSON number lexeme: an optional minus, an integer part, an optional
fraction and an optional exponent.  Returns the lexeme and the rest. -/
def jnumber (input : List Char) : Option (List Char × List Char) :=
  let (sign, r1) : List Char × List Char :=
    match input with
    | '-' :: r => (['-'], r)
    | _ => ([], input)
  match r1 with
  | c :: r2 =>
    if c = '0' then jnumberFrac (sign ++ ['0']) r2
    else if c.isDigit then
      let ds := r1.takeWhile Char.isDigit
      jnumberFrac (sign ++ ds) (r1.dropWhile Char.isDigit)
    else none
  | [] => none
where
  jnumberFrac (acc rest : List Char) : Option (List Char × List Char) :=
    match rest with
    | '.' :: r =>
      let ds := r.takeWhile Char.isDigit
      if ds = [] then none
      else jnumberExp (acc ++ ['.'] ++ ds) (r.dropWhile Char.isDigit)
    | _ => jnumberExp acc rest
  jnumberExp (acc rest : List Char) : Option (List Char × List Char) :=
    match rest with
    | e :: r =>
      if e = 'e' ∨ e = 'E' then
        let (sg, r2) : List Char × List Char :=
          match r with
          | '+' :: rr => (['+'], rr)
          | '-' :: rr => (['-'], rr)
          | _ => ([], r)
        let ds := r2.takeWhile Char.isDigit
        if ds = [] then none
        else some (acc ++ [e] ++ sg ++ ds, r2.dropWhile Char.isDigit)
      else some (acc, rest)
    | [] => some (acc, rest)

mutual

/-- Model of one JSON value parse step (fuel-recursive descent). -/
def jvalue : Nat → List Char → Option (JValue × List Char)
  | 0, _ => none
  | fuel + 1, input =>
    match skipWs input with
    | 'n' :: 'u' :: 'l' :: 'l' :: rest => some (.null, rest)
    | 't' :: 'r' :: 'u' :: 'e' :: rest => some (.bool true, rest)
    | 'f' :: 'a' :: 'l' :: 's' :: 'e' :: rest => some (.bool false, rest)
    | '"' :: rest =>
      match jstringBody (rest.length + 1) rest with
      | some (s, r) => some (.str s, r)
      | none => none
    | '[' :: rest =>
      match skipWs rest with
      | ']' :: r2 => some (.arr [], r2)
      | _ =>
        match jelems fuel rest with
        | some (xs, r2) => some (.arr xs, r2)
        | none => none
    | '\x7b' :: rest =>
      match skipWs rest with
      | '\x7d' :: r2 => some (.obj [], r2)
      | _ =>
        match jfields fuel rest with
        | some (fs, r2) => some (.obj fs, r2)
        | none => none
    | c :: rest =>
      if c = '-' || c.isDigit then
        match jnumber (c :: rest) with
        | some (lex, r) => some (.num lex, r)
        | none => none
      else none
    | [] => none

/-- Comma-separated array elements, up to the closing bracket. -/
def jelems : Nat → List Char → Option (List JValue × List Char)
  | 0, _ => none
  | fuel + 1, input =>
    match jvalue fuel input with
    | some (v, r) =>
      match skipWs r with
      | ',' :: r2 =>
        match jelems fuel r2 with
        | some (xs, r3) => some (v :: xs, r3)
        | none => none
      | ']' :: r2 => some ([v], r2)
      | _ => none
    | none => none

/-- Comma-separated object members, up to the closing brace. -/
def jfields : Nat → List Char → Option (List (List Char × JValue) × List Char)
  | 0, _ => none
  | fuel + 1, input =>
    match skipWs input with
    | '"' :: rest =>
      match jstringBody (rest.length + 1) rest with
      | some (k, r) =>
        match skipWs r with
        | ':' :: r2 =>
          match jvalue fuel r2 with
          | some (v, r3) =>
            match skipWs r3 with
            | ',' :: r4 =>
              match jfields fuel r4 with
              | some (fs, r5) => some ((k, v) :: fs, r5)
              | none => none
            | '\x7d' :: r4 => some ([(k, v)], r4)
            | _ => none
          | none => none
        | _ => none
      | none => none
    | _ => none

end

/-- Model of JavaScript `JSON.parse`: parse one value and require only
trailing whitespace after it; `none` models a thrown `SyntaxError`. -/
def jsonParse (input : List Char) : Option JValue :=
  match jvalue (4 * input.length + 4) input with
  | some (v, rest) => if skipWs rest = [] then some v else none
  | none => none

/-! ### Response repair and validation (route.ts lines 126-167) -/

/-- `isRecord` (route.ts lines 59-61): `typeof v === "object" && v !== null`.
JavaScript arrays are objects, so they pass the guard. -/
def isRecord : JValue → Bool
  | .obj _ => true
  | .arr _ => true
  | _ => false

/-- JavaScript property read `v[k]`, `none` standing for `undefined`.
`JSON.parse` keeps the last of duplicate keys, hence the last match.
A parsed JSON array has no `summary`/`title`/`keywords` properties. -/
def getProp (v : JValue) (k : List Char) : Option JValue :=
  match v with
  | .obj fs => lookupLast fs k
  | _ => none
where
  lookupLast : List (List Char × JValue) → List Char → Option JValue
    | [], _ => none
    | (k0, v0) :: rest, k =>
      match lookupLast rest k with
      | some r => some r
      | none => if k0 = k then some v0 else none

/-- `SummaryJSON` (route.ts line 126). -/
structure SummaryJSON where
  title : Option (List Char)
  summary : List Char
  keywords : List (List Char)
deriving DecidableEq

/-- Fallback keyword triple (route.ts line 145). -/
def defaultKeywords : List (List Char) :=
  ["summary".data, "document".data, "analysis".data]

/-- Keyword filtering step of `normalizeSummary` (route.ts lines 141-144):
keep string entries of a `keywords` array, `[]` otherwise. -/
def filteredKeywords (v : JValue) : List (List Char) :=
  match getProp v "keywords".data with
  | some (.arr xs) =>
    xs.filterMap fun x =>
      match x with
      | .str s => some s
      | _ => none
  | _ => []

/-- `normalizeSummary` (route.ts lines 135-148). -/
def normalizeSummary (v : JValue) : Option SummaryJSON :=
  if isRecord v = false then none
  else
    match getProp v "summary".data with
    | some (.str summaryStr) =>
      let title : Option (List Char) :=
        match getProp v "title".data with
        | some (.str t) => some t
        | _ => none
      let kws := filteredKeywords v
      some { title := title, summary := summaryStr,
             keywords := if kws = [] then defaultKeywords else kws }
    | _ => none

/-- `extractJson` (route.ts lines 128-133): slice from the first opening
brace to the last closing brace; `none` when absent or inverted. -/
def extractJson (raw : List Char) : Option (List Char) :=
  match raw.findIdx? (· = '\x7b'), raw.reverse.findIdx? (· = '\x7d') with
  | some s, some eRev =>
    let e := raw.length - 1 - eRev
    if e ≤ s then none else some ((raw.drop s).take (e + 1 - s))
  | _, _ => none

/-- `parseSummary` (route.ts lines 150-162): direct parse first; on a
parse error, retry on the `extractJson` slice.  A successful parse whose
value fails `normalizeSummary` is returned as `none` without retrying
(no exception is thrown there in the source). -/
def parseSummary (raw : List Char) : Option SummaryJSON :=
  match jsonParse raw with
  | some v => normalizeSummary v
  | none =>
    match extractJson raw with
    | none => none
    | some sliced =>
      match jsonParse sliced with
      | some v => normalizeSummary v
      | none => none

/-! ### Source classification and persistence boundary -/

/-- `SummarySource` Prisma enum (migration.sql / schema). -/
inductive SummarySource where
  | pdf
  | image
  | pdf_image
deriving DecidableEq

/-- Runtime string name of the enum value, as Prisma returns it. -/
def SummarySource.toStr : SummarySource → List Char
  | .pdf => "pdf".data
  | .image => "image".data
  | .pdf_image => "pdf_image".data

/-- `toDbSource` (route.ts lines 71-75). -/
def toDbSource (source : List Char) : SummarySource :=
  if source = "pdf".data then .pdf
  else if source = "image".data then .image
  else .pdf_image

/-- `toApiSource` (route.ts lines 77-79). -/
def toApiSource (source : SummarySource) : List Char :=
  if source.toStr = "pdf_image".data then "pdf+image".data else source.toStr

/-! ### Summarization orchestrator (route.ts POST, lines 293-446) -/

/-- Sentence-count guidance pick (route.ts lines 328-333). -/
def pickSummaryLength (pdfText : List Char) : List Char :=
  if pdfText ≠ [] ∧ 0 < pdfText.length then
    if pdfText.length < 10000 then "16-22".data
    else if pdfText.length < 40000 then "24-34".data
    else "34-45".data
  else "18-24".data

/-- Page count rendered by `pdfBufferToJpegPagesBase64` (route.ts lines
182-209) when no render throws: the page total from `sharp` metadata
(`1` when absent or nonpositive), capped at `maxPages`. -/
def pdfPagesRendered (metaPages : Option Nat) (maxPages : Nat) : Nat :=
  let totalPages : Nat :=
    match metaPages with
    | some p => if 0 < p then p else 1
    | none => 1
  min totalPages maxPages

/-- Inputs and oracle outcomes of one POST request: the form contents,
the PDF text-extraction result, the `sharp` rasterization behaviour and
the raw text returned by the response-producing model call. -/
structure PostEnv where
  hasKey : Bool
  userId : Option (List Char)
  pdfPresent : Bool
  pdfText : List Char
  imagesCount : Nat
  metaPages : Option Nat
  rasterThrows : Bool
  finalRaw : List Char

/-- Observable record of what one POST request did: model calls by kind,
inline image parts attached to the single call, auto-rasterized pages,
chosen guidance band, and whether a Summary row was inserted. -/
structure CallStats where
  chunkCalls : Nat
  mergeCalls : Nat
  singleCalls : Nat
  attachedImages : Nat
  autoPages : Nat
  guidance : List Char
  rowCreated : Bool
deriving DecidableEq

def zeroStats : CallStats :=
  { chunkCalls := 0, mergeCalls := 0, singleCalls := 0,
    attachedImages := 0, autoPages := 0, guidance := [], rowCreated := false }

/-- Fields of the Summary row inserted by `prisma.summary.create`
(route.ts lines 407-417). -/
structure SavedRow where
  userId : List Char
  source : SummarySource
  title : List Char
  summary : List Char
  keywords : List (List Char)
  inputText : List Char
  imageCount : Nat
deriving DecidableEq

/-- Result of one POST request, by response branch. -/
inductive PostOutcome where
  | errMissingKey
  | errUnauthorized
  | errNoInput
  | errScanned
  | errEmptyChunk
  | errParse (excerpt : List Char)
  | ok (saved : SavedRow)
deriving DecidableEq

/-- Stored title (route.ts line 411): the parsed title sliced to 140
characters, or the fixed default when absent or empty. -/
def persistTitle (t : Option (List Char)) : List Char :=
  match t with
  | none => "Akademik Özet".data
  | some s => if s.take 140 = [] then "Akademik Özet".data else s.take 140

/-- Row built at route.ts lines 403-417 from the validated response. -/
def mkSaved (env : PostEnv) (uid pdfText : List Char) (auto : Nat)
    (p : SummaryJSON) : SavedRow :=
  let hasAnyImages := 0 < env.imagesCount ∨ 0 < auto
  let sourceUI : List Char :=
    if env.pdfPresent = true ∧ hasAnyImages then "pdf+image".data
    else if env.pdfPresent = true then "pdf".data
    else "image".data
  { userId := uid
    source := toDbSource sourceUI
    title := persistTitle p.title
    summary := p.summary
    keywords := p.keywords
    inputText := pdfText
    imageCount := if 0 < env.imagesCount then env.imagesCount else auto }

/-- Parse-and-persist tail of POST (route.ts lines 398-428): a failed
`parseSummary` is a 500 with a 300-character excerpt and no insert. -/
def finishPost (env : PostEnv) (uid pdfText : List Char) (auto : Nat)
    (stats : CallStats) : PostOutcome × CallStats :=
  match parseSummary env.finalRaw with
  | none => (.errParse (env.finalRaw.take 300), stats)
  | some parsed =>
    (.ok (mkSaved env uid pdfText auto parsed), { stats with rowCreated := true })

/-- Model-call stage of POST (route.ts lines 365-396): chunk-and-merge
for long text with no images, one combined call otherwise.  The chunk
loop makes one model call per chunk and the merge one more; the single
call attaches the first four user images, else the auto pages. -/
def mainCall (env : PostEnv) (uid pdfText guide : List Char) (auto : Nat) :
    PostOutcome × CallStats :=
  let hasAnyImages := 0 < env.imagesCount ∨ 0 < auto
  if pdfText ≠ [] ∧ 12000 < pdfText.length ∧ ¬hasAnyImages then
    let chunks := chunkText pdfText 9000
    if chunks = [] then (.errEmptyChunk, zeroStats)
    else
      finishPost env uid pdfText auto
        { chunkCalls := chunks.length, mergeCalls := 1, singleCalls := 0,
          attachedImages := 0, autoPages := auto, guidance := guide,
          rowCreated := false }
  else
    finishPost env uid pdfText auto
      { chunkCalls := 0, mergeCalls := 0, singleCalls := 1,
        attachedImages := min env.imagesCount 4 + min auto 4,
        autoPages := auto, guidance := guide, rowCreated := false }

/-- POST orchestrator (route.ts lines 293-446): credential and auth
guards, empty-form rejection, scanned-PDF rasterization fallback with
its 400 error, then the model-call stage. -/
def postSummarize (env : PostEnv) : PostOutcome × CallStats :=
  if env.hasKey = false then (.errMissingKey, zeroStats)
  else
    match env.userId with
    | none => (.errUnauthorized, zeroStats)
    | some uid =>
      if env.pdfPresent = false ∧ env.imagesCount = 0 then (.errNoInput, zeroStats)
      else
        let pdfText := if env.pdfPresent then env.pdfText else []
        let guide := pickSummaryLength pdfText
        if env.pdfPresent = true ∧ (jsTrim pdfText).length = 0 ∧ env.imagesCount = 0 then
          if env.rasterThrows = true then (.errScanned, zeroStats)
          else
            let auto := pdfPagesRendered env.metaPages 2
            if auto = 0 then (.errScanned, zeroStats)
            else mainCall env uid pdfText guide auto
        else mainCall env uid pdfText guide 0

/-! ### DELETE /summary/[id] (summary/[id]/route.ts lines 5-27) -/

/-- Persisted Summary row as the delete route sees it; `payload` stands
for all remaining columns, irrelevant to deletion. -/
structure DbSummary where
  id : List Char
  userId : List Char
  payload : List Char
deriving DecidableEq

/-- `prisma.summary.deleteMany` with an `id` and `userId` filter:
remaining rows and the deleted count. -/
def deleteManyCount (db : List DbSummary) (rid uid : List Char) :
    List DbSummary × Nat :=
  let remaining := db.filter fun r => !(r.id == rid && r.userId == uid)
  (remaining, db.length - remaining.length)

inductive DeleteOutcome where
  | unauthorized
  | notFound
  | success
deriving DecidableEq

/-- DELETE handler: 401 without identity, 404 when the filtered delete
removed nothing, success response otherwise. -/
def deleteSummaryRoute (userId : Option (List Char)) (db : List DbSummary)
    (rid : List Char) : DeleteOutcome × List DbSummary :=
  match userId with
  | none => (.unauthorized, db)
  | some uid =>
    let result := deleteManyCount db rid uid
    if result.2 = 0 then (.notFound, result.1) else (.success, result.1)


/-! ### Concrete inputs used by witnesses and counterexamples -/

/-- Scanned PDF, no text, no images, rasterization throws. -/
def envScanFail : PostEnv :=
  { hasKey := true, userId := some "u".data, pdfPresent := true, pdfText := [],
    imagesCount := 0, metaPages := none, rasterThrows := true, finalRaw := [] }

/-- PDF with 15000 extractable characters, no images. -/
def envText15k : PostEnv :=
  { hasKey := true, userId := some "u".data, pdfPresent := true,
    pdfText := List.replicate 15000 'a', imagesCount := 0,
    metaPages := none, rasterThrows := false, finalRaw := [] }

/-- Five user images, no PDF, model answers with a minimal valid JSON. -/
def envImages5 : PostEnv :=
  { hasKey := true, userId := some "u".data, pdfPresent := false, pdfText := [],
    imagesCount := 5, metaPages := none, rasterThrows := false,
    finalRaw := "\x7b\"summary\":\"s\"\x7d".data }

/-- Row persisted for `envImages5`. -/
def row5 : SavedRow :=
  { userId := "u".data, source := .image, title := "Akademik Özet".data,
    summary := "s".data, keywords := defaultKeywords, inputText := [],
    imageCount := 5 }

/-- Call record for `envImages5`. -/
def stats5 : CallStats :=
  { chunkCalls := 0, mergeCalls := 0, singleCalls := 1, attachedImages := 4,
    autoPages := 0, guidance := "18-24".data, rowCreated := true }

/-- Model response value with an explicitly empty keywords array. -/
def jvEmptyKeywords : JValue :=
  .obj [("summary".data, .str "s".data), ("keywords".data, .arr [])]

/-- Normalization result for `jvEmptyKeywords`. -/
def rEmptyKeywords : SummaryJSON :=
  { title := none, summary := "s".data, keywords := defaultKeywords }

/-- Raw model response wrapping a valid JSON object in prose. -/
def proseWrappedRaw : List Char :=
  "Here is the result: \x7b\"summary\":\"...\",\"keywords\":[\"a\",\"b\"]\x7d Thanks!".data

/-- A row owned by user `u`. -/
def rowOwned : DbSummary := { id := "i".data, userId := "u".data, payload := [] }

/-- A row with the same id owned by a different user `w`. -/
def rowOther : DbSummary := { id := "i".data, userId := "w".data, payload := [] }

/-! ### Chunker lemmas -/

theorem chunksOf_nil (n : Nat) : chunksOf n [] = [] := by
  rw [chunksOf]
  simp

theorem chunksOf_ne_nil (n : Nat) (hn : 0 < n) (l : List Char) (hl : l ≠ []) :
    chunksOf n l ≠ [] := by
  rw [chunksOf]
  rw [dif_neg hl, dif_neg (Nat.pos_iff_ne_zero.mp hn)]
  simp

theorem chunksOf_join_aux (n : Nat) (hn : 0 < n) :
    ∀ (k : Nat) (l : List Char), l.length ≤ k → (chunksOf n l).flatten = l := by
  intro k
  induction k with
  | zero =>
    intro l hl
    have hnil : l = [] := List.eq_nil_of_length_eq_zero (Nat.le_zero.mp hl)
    subst hnil
    simp [chunksOf_nil]
  | succ k ih =>
    intro l hl
    rcases hcase : l with _ | ⟨c, cs⟩
    · simp [chunksOf_nil]
    · subst hcase
      rw [chunksOf, dif_neg (by simp), dif_neg (Nat.pos_iff_ne_zero.mp hn)]
      rw [List.flatten_cons]
      have hlen : ((c :: cs).drop n).length ≤ k := by
        simp only [List.length_drop, List.length_cons]
        simp only [List.length_cons] at hl
        omega
      rw [ih _ hlen]
      exact List.take_append_drop n (c :: cs)

theorem chunksOf_join (n : Nat) (hn : 0 < n) (l : List Char) :
    (chunksOf n l).flatten = l :=
  chunksOf_join_aux n hn l.length l le_rfl

theorem chunksOf_length_aux (n : Nat) (hn : 0 < n) :
    ∀ (k : Nat) (l : List Char), l.length ≤ k →
      (chunksOf n l).length = (l.length + n - 1) / n := by
  intro k
  induction k with
  | zero =>
    intro l hl
    have hnil : l = [] := List.eq_nil_of_length_eq_zero (Nat.le_zero.mp hl)
    subst hnil
    rw [chunksOf_nil]
    simp only [List.length_nil, Nat.zero_add]
    exact (Nat.div_eq_of_lt (by omega)).symm
  | succ k ih =>
    intro l hl
    rcases hcase : l with _ | ⟨c, cs⟩
    · rw [chunksOf_nil]
      simp only [List.length_nil, Nat.zero_add]
      exact (Nat.div_eq_of_lt (by omega)).symm
    · subst hcase
      rw [chunksOf, dif_neg (by simp), dif_neg (Nat.pos_iff_ne_zero.mp hn)]
      have hlen : ((c :: cs).drop n).length ≤ k := by
        simp only [List.length_drop, List.length_cons]
        simp only [List.length_cons] at hl
        omega
      rw [List.length_cons]
      rw [ih _ hlen]
      simp only [List.length_drop, List.length_cons]
      -- goal: (cs.length + 1 - n + n - 1) / n + 1 = (cs.length + 1 + n - 1) / n
      have key : (cs.length + 1 - n + n - 1) / n = cs.length / n := by
        rcases Nat.le_total n (cs.length + 1) with hle | hgt
        · congr 1
          omega
        · have e1 : cs.length + 1 - n = 0 := by omega
          rw [e1]
          have e2 : (0 + n - 1) / n = 0 := Nat.div_eq_of_lt (by omega)
          rw [e2]
          have e3 : cs.length / n = 0 := Nat.div_eq_of_lt (by omega)
          omega
      rw [key]
      have e4 : cs.length + 1 + n - 1 = cs.length + n := by omega
      rw [e4, Nat.add_div_right _ hn]

theorem chunksOf_length (n : Nat) (hn : 0 < n) (l : List Char) :
    (chunksOf n l).length = (l.length + n - 1) / n :=
  chunksOf_length_aux n hn l.length l le_rfl

theorem chunksOf_mem_aux (n : Nat) (hn : 0 < n) :
    ∀ (k : Nat) (l : List Char), l.length ≤ k →
      ∀ c ∈ chunksOf n l, c ≠ [] ∧ c.length ≤ n := by
  intro k
  induction k with
  | zero =>
    intro l hl
    have hnil : l = [] := List.eq_nil_of_length_eq_zero (Nat.le_zero.mp hl)
    subst hnil
    simp [chunksOf_nil]
  | succ k ih =>
    intro l hl
    rcases hcase : l with _ | ⟨a, as⟩
    · simp [chunksOf_nil]
    · subst hcase
      rw [chunksOf, dif_neg (by simp), dif_neg (Nat.pos_iff_ne_zero.mp hn)]
      intro c hc
      rcases List.mem_cons.mp hc with hhd | htl
      · subst hhd
        constructor
        · intro hcontra
          rcases List.take_eq_nil_iff.mp hcontra with h0 | h0
          · omega
          · exact absurd h0 (by simp)
        · simp [List.length_take]
      · have hlen : ((a :: as).drop n).length ≤ k := by
          simp only [List.length_drop, List.length_cons]
          simp only [List.length_cons] at hl
          omega
        exact ih _ hlen c htl

theorem chunksOf_mem (n : Nat) (hn : 0 < n) (l : List Char) :
    ∀ c ∈ chunksOf n l, c ≠ [] ∧ c.length ≤ n :=
  chunksOf_mem_aux n hn l.length l le_rfl

theorem chunksOf_dropLast_aux (n : Nat) (hn : 0 < n) :
    ∀ (k : Nat) (l : List Char), l.length ≤ k →
      ∀ c ∈ (chunksOf n l).dropLast, c.length = n := by
  intro k
  induction k with
  | zero =>
    intro l hl
    have hnil : l = [] := List.eq_nil_of_length_eq_zero (Nat.le_zero.mp hl)
    subst hnil
    simp [chunksOf_nil]
  | succ k ih =>
    intro l hl
    rcases hcase : l with _ | ⟨a, as⟩
    · simp [chunksOf_nil]
    · subst hcase
      rw [chunksOf, dif_neg (by simp), dif_neg (Nat.pos_iff_ne_zero.mp hn)]
      rcases hrest : chunksOf n ((a :: as).drop n) with _ | ⟨r, rs⟩
      · simp
      · rw [List.dropLast_cons₂]
        intro c hc
        have hlen : ((a :: as).drop n).length ≤ k := by
          simp only [List.length_drop, List.length_cons]
          simp only [List.length_cons] at hl
          omega
        rcases List.mem_cons.mp hc with hhd | htl
        · subst hhd
          -- the tail of chunks is nonempty, so the list extends past n chars
          have hne : (a :: as).drop n ≠ [] := by
            intro hcontra
            rw [hcontra, chunksOf_nil] at hrest
            exact absurd hrest.symm (by simp)
          have hlong : n < (a :: as).length := by
            by_contra hcontra
            push_neg at hcontra
            exact hne (List.drop_eq_nil_of_le hcontra)
          simp only [List.length_cons] at hlong
          simp [List.length_take]
          omega
        · have := ih _ hlen c
          rw [hrest] at this
          exact this htl

theorem chunksOf_dropLast (n : Nat) (hn : 0 < n) (l : List Char) :
    ∀ c ∈ (chunksOf n l).dropLast, c.length = n :=
  chunksOf_dropLast_aux n hn l.length l le_rfl


/-! ### Normalization and persistence-tail lemmas -/

theorem persistTitle_ne_nil (t : Option (List Char)) : persistTitle t ≠ [] := by
  cases t with
  | none => simp [persistTitle]
  | some s =>
    simp only [persistTitle]
    split
    · simp
    · assumption

theorem normalizeSummary_some_keywords (v : JValue) (r : SummaryJSON)
    (h : normalizeSummary v = some r) :
    r.keywords = (if filteredKeywords v = [] then defaultKeywords else filteredKeywords v) := by
  unfold normalizeSummary at h
  split at h
  · exact absurd h (by simp)
  · split at h
    · rw [Option.some_inj] at h
      subst h
      rfl
    · exact absurd h (by simp)

theorem normalizeSummary_keywords_ne_nil (v : JValue) (r : SummaryJSON)
    (h : normalizeSummary v = some r) : r.keywords ≠ [] := by
  rw [normalizeSummary_some_keywords v r h]
  split
  · simp [defaultKeywords]
  · assumption

theorem parseSummary_shape (raw : List Char) (r : SummaryJSON)
    (h : parseSummary raw = some r) : ∃ v, normalizeSummary v = some r := by
  unfold parseSummary at h
  split at h
  · exact ⟨_, h⟩
  · split at h
    · exact absurd h (by simp)
    · split at h
      · exact ⟨_, h⟩
      · exact absurd h (by simp)

theorem finishPost_ok (env : PostEnv) (uid pdfText : List Char) (auto : Nat)
    (stats : CallStats) (saved : SavedRow) (st : CallStats)
    (h : finishPost env uid pdfText auto stats = (.ok saved, st)) :
    ∃ parsed, parseSummary env.finalRaw = some parsed ∧
      saved = mkSaved env uid pdfText auto parsed ∧
      st = { stats with rowCreated := true } := by
  unfold finishPost at h
  split at h
  · exact absurd h (by simp)
  · rw [Prod.mk.injEq] at h
    obtain ⟨h1, h2⟩ := h
    rw [PostOutcome.ok.injEq] at h1
    exact ⟨_, by assumption, h1.symm, h2.symm⟩

theorem finishPost_errParse (env : PostEnv) (uid pdfText : List Char) (auto : Nat)
    (stats : CallStats) (e : List Char) (st : CallStats)
    (h : finishPost env uid pdfText auto stats = (.errParse e, st)) :
    parseSummary env.finalRaw = none ∧ e = env.finalRaw.take 300 ∧ st = stats := by
  unfold finishPost at h
  split at h
  · rw [Prod.mk.injEq] at h
    obtain ⟨h1, h2⟩ := h
    rw [PostOutcome.errParse.injEq] at h1
    exact ⟨by assumption, h1.symm, h2.symm⟩
  · exact absurd h (by simp)

theorem finishPost_fst (env : PostEnv) (uid pdfText : List Char) (auto : Nat)
    (stats : CallStats) :
    (∃ e, (finishPost env uid pdfText auto stats).1 = .errParse e) ∨
    (∃ saved, (finishPost env uid pdfText auto stats).1 = .ok saved) := by
  unfold finishPost
  split
  · exact Or.inl ⟨_, rfl⟩
  · exact Or.inr ⟨_, rfl⟩

theorem finishPost_snd_calls (env : PostEnv) (uid pdfText : List Char) (auto : Nat)
    (stats : CallStats) :
    (finishPost env uid pdfText auto stats).2.chunkCalls = stats.chunkCalls ∧
    (finishPost env uid pdfText auto stats).2.mergeCalls = stats.mergeCalls ∧
    (finishPost env uid pdfText auto stats).2.singleCalls = stats.singleCalls ∧
    (finishPost env uid pdfText auto stats).2.attachedImages = stats.attachedImages ∧
    (finishPost env uid pdfText auto stats).2.autoPages = stats.autoPages ∧
    (finishPost env uid pdfText auto stats).2.guidance = stats.guidance := by
  unfold finishPost
  split
  · exact ⟨rfl, rfl, rfl, rfl, rfl, rfl⟩
  · exact ⟨rfl, rfl, rfl, rfl, rfl, rfl⟩

theorem pdfPagesRendered_pos (metaPages : Option Nat) :
    0 < pdfPagesRendered metaPages 2 := by
  unfold pdfPagesRendered
  cases metaPages with
  | none => simp
  | some p =>
    simp only
    split <;> omega

theorem pdfPagesRendered_le (metaPages : Option Nat) :
    pdfPagesRendered metaPages 2 ≤ 2 := by
  unfold pdfPagesRendered
  cases metaPages with
  | none => simp
  | some p =>
    simp only
    exact Nat.min_le_right _ _

theorem mainCall_single (env : PostEnv) (uid pdfText guide : List Char) (auto : Nat)
    (h : ¬(pdfText ≠ [] ∧ 12000 < pdfText.length ∧
        ¬(0 < env.imagesCount ∨ 0 < auto))) :
    mainCall env uid pdfText guide auto =
      finishPost env uid pdfText auto
        { chunkCalls := 0, mergeCalls := 0, singleCalls := 1,
          attachedImages := min env.imagesCount 4 + min auto 4,
          autoPages := auto, guidance := guide, rowCreated := false } := by
  simp only [mainCall]
  rw [if_neg h]

theorem mainCall_chunk (env : PostEnv) (uid pdfText guide : List Char)
    (htrim : jsTrim pdfText = pdfText) (h2 : 12000 < pdfText.length)
    (h3 : env.imagesCount = 0) :
    mainCall env uid pdfText guide 0 =
      finishPost env uid pdfText 0
        { chunkCalls := (pdfText.length + 8999) / 9000, mergeCalls := 1,
          singleCalls := 0, attachedImages := 0, autoPages := 0,
          guidance := guide, rowCreated := false } := by
  have hne : pdfText ≠ [] := by
    intro hnil
    rw [hnil] at h2
    simp at h2
  have hchunks : chunkText pdfText 9000 = chunksOf 9000 pdfText := by
    rw [chunkText, htrim]
  have hnn : chunkText pdfText 9000 ≠ [] := by
    rw [hchunks]
    exact chunksOf_ne_nil 9000 (by omega) pdfText hne
  have e9 : pdfText.length + 9000 - 1 = pdfText.length + 8999 := by omega
  have hlen : (chunkText pdfText 9000).length = (pdfText.length + 8999) / 9000 := by
    rw [hchunks, chunksOf_length 9000 (by omega) pdfText, e9]
  simp only [mainCall]
  rw [if_pos ⟨hne, h2, by rw [h3]; simp⟩]
  rw [if_neg hnn]
  rw [hlen]

theorem post_ok_cases (env : PostEnv) (saved : SavedRow) (st : CallStats)
    (h : postSummarize env = (.ok saved, st)) :
    ∃ uid auto parsed,
      env.userId = some uid ∧
      parseSummary env.finalRaw = some parsed ∧
      saved = mkSaved env uid (if env.pdfPresent then env.pdfText else []) auto parsed ∧
      st.rowCreated = true ∧ st.autoPages = auto ∧ auto ≤ 2 ∧
      (env.imagesCount = 0 ∨ auto = 0) ∧
      ((st.singleCalls = 1 ∧
        st.attachedImages = min env.imagesCount 4 + min auto 4) ∨
       (st.singleCalls = 0 ∧ st.attachedImages = 0 ∧
        env.imagesCount = 0 ∧ auto = 0)) := by
  obtain ⟨hk, hu, hp, txt, ic, mp, rt, fr⟩ := env
  cases hk with
  | false => simp [postSummarize] at h
  | true =>
    cases hu with
    | none => simp [postSummarize] at h
    | some uid =>
      cases hp with
      | false =>
        rcases Nat.eq_zero_or_pos ic with hic | hic
        · subst hic
          simp [postSummarize] at h
        · have hic0 : ic ≠ 0 := by omega
          simp only [postSummarize] at h
          rw [if_neg (by simp), if_neg (by simp [hic0])] at h
          rw [if_neg (by simp)] at h
          rw [mainCall_single _ _ _ _ _ (by simp)] at h
          obtain ⟨parsed, hpar, hs, hst⟩ := finishPost_ok _ _ _ _ _ _ _ h
          exact ⟨uid, 0, parsed, rfl, hpar, hs, by rw [hst], by rw [hst],
            by omega, Or.inr rfl, Or.inl ⟨by rw [hst], by rw [hst]⟩⟩
      | true =>
        simp only [postSummarize] at h
        rw [if_neg (by simp), if_neg (by simp)] at h
        simp only [if_true, true_and] at h
        by_cases hscan : (jsTrim txt).length = 0 ∧ ic = 0
        · rw [if_pos hscan] at h
          cases rt with
          | true => simp at h
          | false =>
            rw [if_neg (by simp)] at h
            have hpos := pdfPagesRendered_pos mp
            rw [if_neg (by omega)] at h
            rw [mainCall_single _ _ _ _ _ (by
              intro hcon
              exact hcon.2.2 (Or.inr hpos))] at h
            obtain ⟨parsed, hpar, hs, hst⟩ := finishPost_ok _ _ _ _ _ _ _ h
            exact ⟨uid, pdfPagesRendered mp 2, parsed, rfl, hpar, hs,
              by rw [hst], by rw [hst], pdfPagesRendered_le mp, Or.inl hscan.2,
              Or.inl ⟨by rw [hst], by rw [hst]⟩⟩
        · rw [if_neg hscan] at h
          by_cases hchunk : txt ≠ [] ∧ 12000 < txt.length ∧ ¬(0 < ic ∨ (0 : Nat) < 0)
          · simp only [mainCall] at h
            rw [if_pos hchunk] at h
            split at h
            · simp at h
            · obtain ⟨parsed, hpar, hs, hst⟩ := finishPost_ok _ _ _ _ _ _ _ h
              refine ⟨uid, 0, parsed, rfl, hpar, hs, by rw [hst], by rw [hst],
                by omega, Or.inr rfl, Or.inr ⟨by rw [hst], by rw [hst], ?_, rfl⟩⟩
              have := hchunk.2.2
              show ic = 0
              omega
          · rw [mainCall_single _ _ _ _ _ hchunk] at h
            obtain ⟨parsed, hpar, hs, hst⟩ := finishPost_ok _ _ _ _ _ _ _ h
            exact ⟨uid, 0, parsed, rfl, hpar, hs, by rw [hst], by rw [hst],
              by omega, Or.inr rfl, Or.inl ⟨by rw [hst], by rw [hst]⟩⟩

theorem post_errParse_cases (env : PostEnv) (e : List Char) (st : CallStats)
    (h : postSummarize env = (.errParse e, st)) :
    parseSummary env.finalRaw = none ∧ e = env.finalRaw.take 300 := by
  obtain ⟨hk, hu, hp, txt, ic, mp, rt, fr⟩ := env
  cases hk with
  | false => simp [postSummarize] at h
  | true =>
    cases hu with
    | none => simp [postSummarize] at h
    | some uid =>
      cases hp with
      | false =>
        rcases Nat.eq_zero_or_pos ic with hic | hic
        · subst hic
          simp [postSummarize] at h
        · have hic0 : ic ≠ 0 := by omega
          simp only [postSummarize] at h
          rw [if_neg (by simp), if_neg (by simp [hic0])] at h
          rw [if_neg (by simp)] at h
          rw [mainCall_single _ _ _ _ _ (by simp)] at h
          obtain ⟨hpar, he, -⟩ := finishPost_errParse _ _ _ _ _ _ _ h
          exact ⟨hpar, he⟩
      | true =>
        simp only [postSummarize] at h
        rw [if_neg (by simp), if_neg (by simp)] at h
        simp only [if_true, true_and] at h
        by_cases hscan : (jsTrim txt).length = 0 ∧ ic = 0
        · rw [if_pos hscan] at h
          cases rt with
          | true => simp at h
          | false =>
            rw [if_neg (by simp)] at h
            have hpos := pdfPagesRendered_pos mp
            rw [if_neg (by omega)] at h
            rw [mainCall_single _ _ _ _ _ (by
              intro hcon
              exact hcon.2.2 (Or.inr hpos))] at h
            obtain ⟨hpar, he, -⟩ := finishPost_errParse _ _ _ _ _ _ _ h
            exact ⟨hpar, he⟩
        · rw [if_neg hscan] at h
          by_cases hchunk : txt ≠ [] ∧ 12000 < txt.length ∧ ¬(0 < ic ∨ (0 : Nat) < 0)
          · simp only [mainCall] at h
            rw [if_pos hchunk] at h
            split at h
            · simp at h
            · obtain ⟨hpar, he, -⟩ := finishPost_errParse _ _ _ _ _ _ _ h
              exact ⟨hpar, he⟩
          · rw [mainCall_single _ _ _ _ _ hchunk] at h
            obtain ⟨hpar, he, -⟩ := finishPost_errParse _ _ _ _ _ _ _ h
            exact ⟨hpar, he⟩

theorem length_filter_lt_of_mem {α : Type} (p : α → Bool) {a : α} :
    ∀ (l : List α), a ∈ l → p a = false → (l.filter p).length < l.length := by
  intro l
  induction l with
  | nil =>
    intro hmem
    simp at hmem
  | cons b t ih =>
    intro hmem hpa
    rcases List.mem_cons.mp hmem with rfl | ht
    · rw [List.filter_cons, hpa]
      have := List.length_filter_le p t
      simp only [List.length_cons]
      simp only [Bool.false_eq_true, if_false]
      omega
    · rw [List.filter_cons]
      split
      · simp only [List.length_cons]
        have := ih ht hpa
        omega
      · have := ih ht hpa
        simp only [List.length_cons]
        omega

/-- C3: every normalized model response carries a non-empty string
keyword list: non-string entries are dropped, and the fixed 3-element
default list replaces an empty result; every persisted Summary row
therefore has non-empty keywords. -/
theorem c3_keywords :
    (∀ v r, normalizeSummary v = some r →
      r.keywords ≠ [] ∧
      r.keywords =
        (if filteredKeywords v = [] then defaultKeywords else filteredKeywords v)) ∧
    defaultKeywords = ["summary".data, "document".data, "analysis".data] ∧
    defaultKeywords.length = 3 ∧
    (∀ env saved st, postSummarize env = (.ok saved, st) → saved.keywords ≠ []) := by
  refine ⟨?_, rfl, rfl, ?_⟩
  · intro v r h
    exact ⟨normalizeSummary_keywords_ne_nil v r h, normalizeSummary_some_keywords v r h⟩
  · intro env saved st h
    obtain ⟨uid, auto, parsed, -, hpar, hs, -⟩ := post_ok_cases env saved st h
    obtain ⟨v, hv⟩ := parseSummary_shape _ _ hpar
    have hkw : saved.keywords = parsed.keywords := by
      rw [hs]
      rfl
    rw [hkw]
    exact normalizeSummary_keywords_ne_nil _ _ hv

/-- C3 witness: a response with an explicitly empty keywords array is
normalized to the default triple, which is non-empty. -/
theorem c3_keywords_witness :
    rEmptyKeywords.keywords ≠ [] ∧
    rEmptyKeywords.keywords =
      (if filteredKeywords jvEmptyKeywords = [] then defaultKeywords
       else filteredKeywords jvEmptyKeywords) :=
  c3_keywords.1 jvEmptyKeywords rEmptyKeywords rfl

/-- C4: the response parser tries a direct JSON parse, then retries on
the first-brace-to-last-brace slice, and any remaining failure surfaces
as the hard parse error carrying a 300-character excerpt; a valid JSON
object wrapped in brace-free prose is recovered. -/
theorem c4_response_repair :
    (∀ raw v, jsonParse raw = some v → parseSummary raw = normalizeSummary v) ∧
    (∀ raw, jsonParse raw = none → extractJson raw = none →
      parseSummary raw = none) ∧
    (∀ raw sliced, jsonParse raw = none → extractJson raw = some sliced →
      parseSummary raw = (jsonParse sliced).bind normalizeSummary) ∧
    (∀ env e st, postSummarize env = (.errParse e, st) →
      parseSummary env.finalRaw = none ∧ e = env.finalRaw.take 300) ∧
    (∀ env uid pdfText auto stats, parseSummary env.finalRaw = none →
      finishPost env uid pdfText auto stats =
        (.errParse (env.finalRaw.take 300), stats)) ∧
    parseSummary proseWrappedRaw =
      some { title := none, summary := "...".data,
             keywords := ["a".data, "b".data] } := by
  refine ⟨?_, ?_, ?_, ?_, ?_, ?_⟩
  · intro raw v h
    simp [parseSummary, h]
  · intro raw h1 h2
    simp [parseSummary, h1, h2]
  · intro raw sliced h1 h2
    cases hj : jsonParse sliced <;> simp [parseSummary, h1, h2, hj]
  · intro env e st h
    exact post_errParse_cases env e st h
  · intro env uid pdfText auto stats h
    unfold finishPost
    rw [h]
  · rfl

/-- C4 witness: a brace-free non-JSON response fails closed, and a
bare-number response parses but fails validation. -/
theorem c4_response_repair_witness :
    parseSummary "x".data = none ∧ parseSummary "1".data = none := by
  constructor
  · exact c4_response_repair.2.1 "x".data rfl rfl
  · exact (c4_response_repair.1 "1".data (.num "1".data) rfl).trans rfl

/-- C5: the chunker trims its input, returns the empty sequence on
whitespace-only input, and otherwise cuts the trimmed text into
contiguous in-order slices of exactly 9000 characters except a shorter
non-empty final slice; concatenation restores the trimmed input and the
count is the length ceiling-divided by 9000.  It is a pure function of
its input. -/
theorem c5_chunker (s : List Char) :
    (jsTrim s = [] → chunkText s 9000 = []) ∧
    (chunkText s 9000).flatten = jsTrim s ∧
    (chunkText s 9000).length = ((jsTrim s).length + 8999) / 9000 ∧
    (∀ c ∈ (chunkText s 9000).dropLast, c.length = 9000) ∧
    (∀ c ∈ chunkText s 9000, c ≠ [] ∧ c.length ≤ 9000) := by
  have e9 : (jsTrim s).length + 9000 - 1 = (jsTrim s).length + 8999 := by omega
  refine ⟨?_, ?_, ?_, ?_, ?_⟩
  · intro h
    rw [chunkText, h, chunksOf_nil]
  · rw [chunkText]
    exact chunksOf_join 9000 (by omega) _
  · rw [chunkText, chunksOf_length 9000 (by omega), e9]
  · rw [chunkText]
    exact chunksOf_dropLast 9000 (by omega) _
  · rw [chunkText]
    exact chunksOf_mem 9000 (by omega) _

/-- C5 witness: whitespace-only input gives no chunks; a short input is
restored by concatenation and its single chunk is non-empty and within
the bound. -/
theorem c5_chunker_witness :
    chunkText "   ".data 9000 = [] ∧
    (chunkText "ab".data 9000).flatten = jsTrim "ab".data ∧
    ("ab".data ≠ [] ∧ ("ab".data : List Char).length ≤ 9000) := by
  have hcc : chunkText "ab".data 9000 = ["ab".data] := by
    rw [chunkText, show jsTrim "ab".data = "ab".data from rfl]
    rw [chunksOf]
    rw [dif_neg (by decide), dif_neg (by decide)]
    rw [show List.drop 9000 "ab".data = [] from rfl, chunksOf_nil]
    rw [show List.take 9000 "ab".data = "ab".data from rfl]
  have hmem : "ab".data ∈ chunkText "ab".data 9000 := by
    rw [hcc]
    exact List.mem_singleton.mpr rfl
  exact ⟨(c5_chunker "   ".data).1 rfl, (c5_chunker "ab".data).2.1,
    (c5_chunker "ab".data).2.2.2.2 _ hmem⟩

/-- C7: the source classification round-trips through the persistence
boundary: each of the three user-facing values maps to the stored enum
and back to itself, and the concatenated form is stored as `pdf_image`. -/
theorem c7_source_roundtrip :
    (∀ s : List Char,
      s = "pdf".data ∨ s = "image".data ∨ s = "pdf+image".data →
      toApiSource (toDbSource s) = s) ∧
    toDbSource "pdf+image".data = SummarySource.pdf_image ∧
    toApiSource SummarySource.pdf_image = "pdf+image".data := by
  refine ⟨?_, rfl, rfl⟩
  rintro s (rfl | rfl | rfl) <;> rfl

/-- C7 witness: the concatenated form survives the round trip. -/
theorem c7_source_roundtrip_witness :
    toApiSource (toDbSource "pdf+image".data) = "pdf+image".data :=
  c7_source_roundtrip.1 "pdf+image".data (Or.inr (Or.inr rfl))

/-- C9: the stored title is never empty: the default replaces an absent
or empty model title, any other title is kept truncated to 140
characters (a non-empty prefix), and every persisted row has a
non-empty title. -/
theorem c9_title :
    persistTitle none = "Akademik Özet".data ∧
    persistTitle (some []) = "Akademik Özet".data ∧
    (∀ s : List Char, s ≠ [] →
      persistTitle (some s) = s.take 140 ∧ s.take 140 ≠ []) ∧
    (∀ env saved st, postSummarize env = (.ok saved, st) → saved.title ≠ []) := by
  refine ⟨rfl, rfl, ?_, ?_⟩
  · intro s hs
    have ht : s.take 140 ≠ [] := by
      intro hc
      rcases List.take_eq_nil_iff.mp hc with h0 | h0
      · exact absurd h0 (by omega)
      · exact hs h0
    refine ⟨?_, ht⟩
    simp only [persistTitle]
    rw [if_neg ht]
  · intro env saved st h
    obtain ⟨uid, auto, parsed, -, hpar, hs, -⟩ := post_ok_cases env saved st h
    have hti : saved.title = persistTitle parsed.title := by
      rw [hs]
      rfl
    rw [hti]
    exact persistTitle_ne_nil _

/-- C9 witness: a concrete non-empty title is kept, and the row
persisted for a five-image request has a non-empty title. -/
theorem c9_title_witness :
    (persistTitle (some "ab".data) = ("ab".data : List Char).take 140 ∧
      ("ab".data : List Char).take 140 ≠ []) ∧
    row5.title ≠ [] := by
  refine ⟨c9_title.2.2.1 "ab".data (by decide), ?_⟩
  exact c9_title.2.2.2 envImages5 row5 stats5 rfl

theorem jsTrim_replicate_a (n : Nat) :
    jsTrim (List.replicate n 'a') = List.replicate n 'a' := by
  have hdw : ∀ m : Nat,
      (List.replicate m 'a').dropWhile Char.isWhitespace = List.replicate m 'a' := by
    intro m
    cases m with
    | zero => rfl
    | succ k =>
      rw [List.replicate_succ, List.dropWhile_cons]
      rw [if_neg (by decide)]
  unfold jsTrim
  rw [hdw, List.reverse_replicate, hdw, List.reverse_replicate]

theorem post_chunk_eq (env : PostEnv) (uid : List Char)
    (hk : env.hasKey = true) (hu : env.userId = some uid)
    (hp : env.pdfPresent = true) (htrim : jsTrim env.pdfText = env.pdfText)
    (hlong : 12000 < env.pdfText.length) (him : env.imagesCount = 0) :
    postSummarize env =
      finishPost env uid env.pdfText 0
        { chunkCalls := (env.pdfText.length + 8999) / 9000, mergeCalls := 1,
          singleCalls := 0, attachedImages := 0, autoPages := 0,
          guidance := pickSummaryLength env.pdfText, rowCreated := false } := by
  have hne : ¬((jsTrim env.pdfText).length = 0) := by
    rw [htrim]
    omega
  simp only [postSummarize, hk, hu, hp, him, if_true, true_and, and_true]
  rw [if_neg (by simp), if_neg (by simp)]
  rw [if_neg hne]
  rw [mainCall_chunk env uid env.pdfText _ htrim hlong him]

theorem post_scanned_throw_eq (env : PostEnv) (uid : List Char)
    (hk : env.hasKey = true) (hu : env.userId = some uid)
    (hp : env.pdfPresent = true) (htrim0 : (jsTrim env.pdfText).length = 0)
    (him : env.imagesCount = 0) (hrt : env.rasterThrows = true) :
    postSummarize env = (.errScanned, zeroStats) := by
  simp only [postSummarize, hk, hu, hp, him, hrt, if_true, true_and, and_true]
  rw [if_neg (by simp), if_neg (by simp)]
  rw [if_pos htrim0]

theorem post_scanned_raster_eq (env : PostEnv) (uid : List Char)
    (hk : env.hasKey = true) (hu : env.userId = some uid)
    (hp : env.pdfPresent = true) (htrim0 : (jsTrim env.pdfText).length = 0)
    (him : env.imagesCount = 0) (hrt : env.rasterThrows = false) :
    postSummarize env =
      mainCall env uid env.pdfText (pickSummaryLength env.pdfText)
        (pdfPagesRendered env.metaPages 2) := by
  simp only [postSummarize, hk, hu, hp, him, hrt, if_true, true_and, and_true]
  rw [if_neg (by simp), if_neg (by simp)]
  rw [if_pos htrim0]
  rw [if_neg (by simp)]
  rw [if_neg (by
    have := pdfPagesRendered_pos env.metaPages
    omega)]

theorem post_single_eq (env : PostEnv) (uid : List Char)
    (hk : env.hasKey = true) (hu : env.userId = some uid)
    (hp : env.pdfPresent = true)
    (hne0 : ¬((jsTrim env.pdfText).length = 0 ∧ env.imagesCount = 0))
    (hnc : ¬(env.pdfText ≠ [] ∧ 12000 < env.pdfText.length ∧
        ¬(0 < env.imagesCount ∨ (0 : Nat) < 0))) :
    postSummarize env =
      finishPost env uid env.pdfText 0
        { chunkCalls := 0, mergeCalls := 0, singleCalls := 1,
          attachedImages := min env.imagesCount 4 + min 0 4,
          autoPages := 0, guidance := pickSummaryLength env.pdfText,
          rowCreated := false } := by
  simp only [postSummarize, hk, hu, hp, if_true, true_and]
  rw [if_neg (by simp), if_neg (by simp)]
  rw [if_neg hne0]
  rw [mainCall_single env uid env.pdfText _ 0 hnc]

/-- C1 counterexample: a request with a PDF whose extracted text has
length 0 (at or below the threshold), no user images and no
auto-rasterized images (rasterization throws) makes zero model calls,
not exactly one: the orchestrator rejects it with the scanned-PDF 400
before any model call. -/
theorem c1_counterexample :
    envScanFail.pdfText.length = 0 ∧ envScanFail.imagesCount = 0 ∧
    (postSummarize envScanFail).2.autoPages = 0 ∧
    (postSummarize envScanFail).2.chunkCalls = 0 ∧
    (postSummarize envScanFail).2.mergeCalls = 0 ∧
    (postSummarize envScanFail).2.singleCalls = 0 ∧
    (postSummarize envScanFail).1 = .errScanned :=
  ⟨rfl, rfl, rfl, rfl, rfl, rfl, rfl⟩

/-- C1 (amended): for an authenticated request carrying a PDF whose
extracted text (already trimmed by the extractor) has length L: when
L > 12000 and no user images are supplied, the chunk-and-merge path
makes exactly the ceiling of L / 9000 chunk-level calls plus one merge
call; when 0 < L and L is at most 12000, or any user image is supplied,
exactly one model call is made; when L = 0 and no images are supplied,
the request makes one model call if rasterization produced pages and
zero model calls (400 scanned-PDF error) if rasterization threw. -/
theorem c1_call_counts (env : PostEnv) (uid : List Char)
    (hk : env.hasKey = true) (hu : env.userId = some uid)
    (hp : env.pdfPresent = true) (htrim : jsTrim env.pdfText = env.pdfText) :
    (12000 < env.pdfText.length → env.imagesCount = 0 →
      (postSummarize env).2.chunkCalls = (env.pdfText.length + 8999) / 9000 ∧
      (postSummarize env).2.mergeCalls = 1 ∧
      (postSummarize env).2.singleCalls = 0) ∧
    ((0 < env.pdfText.length ∧ env.pdfText.length ≤ 12000) ∨
        0 < env.imagesCount →
      (postSummarize env).2.singleCalls = 1 ∧
      (postSummarize env).2.chunkCalls = 0 ∧
      (postSummarize env).2.mergeCalls = 0) ∧
    (env.pdfText.length = 0 → env.imagesCount = 0 → env.rasterThrows = true →
      postSummarize env = (.errScanned, zeroStats)) ∧
    (env.pdfText.length = 0 → env.imagesCount = 0 → env.rasterThrows = false →
      (postSummarize env).2.singleCalls = 1 ∧
      (postSummarize env).2.chunkCalls = 0 ∧
      (postSummarize env).2.mergeCalls = 0) := by
  refine ⟨?_, ?_, ?_, ?_⟩
  · intro hlong him
    rw [post_chunk_eq env uid hk hu hp htrim hlong him]
    exact ⟨(finishPost_snd_calls _ _ _ _ _).1, (finishPost_snd_calls _ _ _ _ _).2.1,
      (finishPost_snd_calls _ _ _ _ _).2.2.1⟩
  · intro hcase
    have hne0 : ¬((jsTrim env.pdfText).length = 0 ∧ env.imagesCount = 0) := by
      rw [htrim]
      rcases hcase with ⟨hl, -⟩ | hi
      · intro hc
        omega
      · intro hc
        omega
    have hnc : ¬(env.pdfText ≠ [] ∧ 12000 < env.pdfText.length ∧
        ¬(0 < env.imagesCount ∨ (0 : Nat) < 0)) := by
      rcases hcase with ⟨-, hle⟩ | hi
      · intro hc
        exact absurd hc.2.1 (by omega)
      · intro hc
        exact hc.2.2 (Or.inl hi)
    rw [post_single_eq env uid hk hu hp hne0 hnc]
    exact ⟨(finishPost_snd_calls _ _ _ _ _).2.2.1, (finishPost_snd_calls _ _ _ _ _).1,
      (finishPost_snd_calls _ _ _ _ _).2.1⟩
  · intro hl0 him hrt
    exact post_scanned_throw_eq env uid hk hu hp (by rw [htrim]; exact hl0) him hrt
  · intro hl0 him hrt
    rw [post_scanned_raster_eq env uid hk hu hp (by rw [htrim]; exact hl0) him hrt]
    rw [mainCall_single env uid env.pdfText _ _ (by
      intro hc
      exact hc.2.2 (Or.inr (pdfPagesRendered_pos env.metaPages)))]
    exact ⟨(finishPost_snd_calls _ _ _ _ _).2.2.1, (finishPost_snd_calls _ _ _ _ _).1,
      (finishPost_snd_calls _ _ _ _ _).2.1⟩

/-- C1 witness: the scanned-PDF failure makes zero calls, and a 15000
character extraction chunk-and-merges with two chunk calls plus one
merge call. -/
theorem c1_call_counts_witness :
    postSummarize envScanFail = (.errScanned, zeroStats) ∧
    (postSummarize envText15k).2.chunkCalls = 2 ∧
    (postSummarize envText15k).2.mergeCalls = 1 ∧
    (postSummarize envText15k).2.singleCalls = 0 := by
  constructor
  · exact (c1_call_counts envScanFail "u".data rfl rfl rfl rfl).2.2.1 rfl rfl rfl
  · have h := (c1_call_counts envText15k "u".data rfl rfl rfl
      (jsTrim_replicate_a 15000)).1 (by
        show (12000 : Nat) < (List.replicate 15000 'a').length
        rw [List.length_replicate]
        omega) rfl
    have hlen : envText15k.pdfText.length = 15000 := by
      show (List.replicate 15000 'a').length = 15000
      rw [List.length_replicate]
    rw [hlen] at h
    norm_num at h
    exact h

/-- C2: for an authenticated request supplying a PDF whose extraction
yields only whitespace and no user images, the orchestrator consults
rasterization before failing: it returns the scanned-PDF 400 exactly
when rasterization throws (its page count is otherwise at least one, so
the zero-page check never fires on a normal return), and in that case
makes no model call and creates no Summary row; when rasterization
returns pages, exactly one model call is made with those pages. -/
theorem c2_scanned_fallback (env : PostEnv) (uid : List Char)
    (hk : env.hasKey = true) (hu : env.userId = some uid)
    (hp : env.pdfPresent = true) (htrim0 : jsTrim env.pdfText = [])
    (him : env.imagesCount = 0) :
    ((postSummarize env).1 = .errScanned ↔ env.rasterThrows = true) ∧
    (env.rasterThrows = true →
      postSummarize env = (.errScanned, zeroStats) ∧
      (postSummarize env).2.chunkCalls = 0 ∧
      (postSummarize env).2.mergeCalls = 0 ∧
      (postSummarize env).2.singleCalls = 0 ∧
      (postSummarize env).2.rowCreated = false) ∧
    (env.rasterThrows = false →
      (postSummarize env).2.singleCalls = 1 ∧
      0 < (postSummarize env).2.autoPages) := by
  have hlen0 : (jsTrim env.pdfText).length = 0 := by
    rw [htrim0]
    rfl
  have hthrow : env.rasterThrows = true →
      postSummarize env = (.errScanned, zeroStats) :=
    fun hrt => post_scanned_throw_eq env uid hk hu hp hlen0 him hrt
  have hOK : env.rasterThrows = false →
      postSummarize env =
        finishPost env uid env.pdfText (pdfPagesRendered env.metaPages 2)
          { chunkCalls := 0, mergeCalls := 0, singleCalls := 1,
            attachedImages := min env.imagesCount 4 +
              min (pdfPagesRendered env.metaPages 2) 4,
            autoPages := pdfPagesRendered env.metaPages 2,
            guidance := pickSummaryLength env.pdfText, rowCreated := false } := by
    intro hrt
    rw [post_scanned_raster_eq env uid hk hu hp hlen0 him hrt]
    exact mainCall_single env uid env.pdfText _ _ (fun hc =>
      hc.2.2 (Or.inr (pdfPagesRendered_pos env.metaPages)))
  refine ⟨⟨?_, ?_⟩, ?_, ?_⟩
  · intro hsc
    cases hrt : env.rasterThrows with
    | true => rfl
    | false =>
      exfalso
      have h1 := congrArg Prod.fst (hOK hrt)
      rw [hsc] at h1
      rcases finishPost_fst env uid env.pdfText (pdfPagesRendered env.metaPages 2)
        { chunkCalls := 0, mergeCalls := 0, singleCalls := 1,
          attachedImages := min env.imagesCount 4 +
            min (pdfPagesRendered env.metaPages 2) 4,
          autoPages := pdfPagesRendered env.metaPages 2,
          guidance := pickSummaryLength env.pdfText, rowCreated := false } with
        ⟨e, hfe⟩ | ⟨sv, hfe⟩ <;> rw [hfe] at h1 <;> simp at h1
  · intro hrt
    rw [hthrow hrt]
  · intro hrt
    refine ⟨hthrow hrt, ?_, ?_, ?_, ?_⟩ <;> rw [hthrow hrt] <;> rfl
  · intro hrt
    rw [hOK hrt]
    refine ⟨(finishPost_snd_calls _ _ _ _ _).2.2.1, ?_⟩
    rw [(finishPost_snd_calls _ _ _ _ _).2.2.2.2.1]
    exact pdfPagesRendered_pos env.metaPages

/-- C2 witness: the concrete scanned PDF whose rasterization throws is
rejected with the scanned-PDF error, zero calls and no row. -/
theorem c2_scanned_fallback_witness :
    postSummarize envScanFail = (.errScanned, zeroStats) ∧
    zeroStats.rowCreated = false :=
  ⟨((c2_scanned_fallback envScanFail "u".data rfl rfl rfl rfl rfl).2.1 rfl).1, rfl⟩

/-- C6 counterexample: a text of exactly 40000 characters selects the
"34-45" band although its length is not more than 40000. -/
theorem c6_guidance_counterexample :
    (List.replicate 40000 'a').length = 40000 ∧
    pickSummaryLength (List.replicate 40000 'a') = "34-45".data := by
  have hlen : (List.replicate 40000 'a').length = 40000 :=
    List.length_replicate _ _
  refine ⟨hlen, ?_⟩
  have hne : List.replicate 40000 'a' ≠ [] := by
    intro hc
    have h0 := congrArg List.length hc
    rw [hlen] at h0
    simp at h0
  unfold pickSummaryLength
  rw [if_pos ⟨hne, by rw [hlen]; omega⟩]
  rw [hlen]
  rw [if_neg (by omega), if_neg (by omega)]

/-- C6 (amended): the guidance band is "16-22" for non-empty texts
shorter than 10000 characters, "24-34" for lengths from 10000 up to but
not including 40000, and "34-45" for lengths of at least 40000 (so
already at exactly 40000, not only above it); a PDF with 15000
extractable characters and no images takes the chunk-and-merge path
with the "24-34" band. -/
theorem c6_guidance :
    (∀ t : List Char, 40000 ≤ t.length → pickSummaryLength t = "34-45".data) ∧
    (∀ t : List Char, 10000 ≤ t.length → t.length < 40000 →
      pickSummaryLength t = "24-34".data) ∧
    (∀ t : List Char, 0 < t.length → t.length < 10000 →
      pickSummaryLength t = "16-22".data) ∧
    (∀ env uid, env.hasKey = true → env.userId = some uid →
      env.pdfPresent = true → jsTrim env.pdfText = env.pdfText →
      env.pdfText.length = 15000 → env.imagesCount = 0 →
      (postSummarize env).2.chunkCalls = 2 ∧
      (postSummarize env).2.mergeCalls = 1 ∧
      (postSummarize env).2.singleCalls = 0 ∧
      (postSummarize env).2.guidance = "24-34".data) := by
  have hne_of : ∀ (t : List Char), 0 < t.length → t ≠ [] := by
    intro t h0 hc
    rw [hc] at h0
    simp at h0
  refine ⟨?_, ?_, ?_, ?_⟩
  · intro t h40
    unfold pickSummaryLength
    rw [if_pos ⟨hne_of t (by omega), by omega⟩]
    rw [if_neg (by omega), if_neg (by omega)]
  · intro t h10 h40
    unfold pickSummaryLength
    rw [if_pos ⟨hne_of t (by omega), by omega⟩]
    rw [if_neg (by omega), if_pos (by omega)]
  · intro t h0 h10
    unfold pickSummaryLength
    rw [if_pos ⟨hne_of t h0, by omega⟩]
    rw [if_pos (by omega)]
  · intro env uid hk hu hp htrim hlen him
    have hlong : 12000 < env.pdfText.length := by omega
    rw [post_chunk_eq env uid hk hu hp htrim hlong him]
    refine ⟨?_, (finishPost_snd_calls _ _ _ _ _).2.1,
      (finishPost_snd_calls _ _ _ _ _).2.2.1, ?_⟩
    · rw [(finishPost_snd_calls _ _ _ _ _).1, hlen]
    · rw [(finishPost_snd_calls _ _ _ _ _).2.2.2.2.2]
      unfold pickSummaryLength
      rw [if_pos ⟨hne_of _ (by omega), by omega⟩]
      rw [if_neg (by omega), if_pos (by omega)]

/-- C6 witness: the 15000-character scenario takes the chunk-and-merge
path with two chunk calls, one merge call and the "24-34" band. -/
theorem c6_guidance_witness :
    (postSummarize envText15k).2.chunkCalls = 2 ∧
    (postSummarize envText15k).2.mergeCalls = 1 ∧
    (postSummarize envText15k).2.singleCalls = 0 ∧
    (postSummarize envText15k).2.guidance = "24-34".data :=
  c6_guidance.2.2.2 envText15k "u".data rfl rfl rfl (jsTrim_replicate_a 15000)
    (List.length_replicate 15000 'a') rfl

/-- C8: for an authenticated caller, the delete route removes a row
exactly when one with that id is owned by the caller, answering
success; otherwise it answers 404 and the row list is unchanged, and a
row not matching the caller-and-id filter is never removed. -/
theorem c8_delete_owned (uid rid : List Char) (db : List DbSummary) :
    ((∃ r ∈ db, r.id = rid ∧ r.userId = uid) →
      deleteSummaryRoute (some uid) db rid =
        (.success, db.filter fun r => !(r.id == rid && r.userId == uid))) ∧
    ((∀ r ∈ db, ¬(r.id = rid ∧ r.userId = uid)) →
      deleteSummaryRoute (some uid) db rid = (.notFound, db)) ∧
    (∀ r ∈ db, ¬(r.id = rid ∧ r.userId = uid) →
      r ∈ (deleteSummaryRoute (some uid) db rid).2) := by
  refine ⟨?_, ?_, ?_⟩
  · rintro ⟨r0, hr0, hid, huid⟩
    have hp0 : (fun r => !(r.id == rid && r.userId == uid)) r0 = false := by
      simp [hid, huid]
    have hlt := length_filter_lt_of_mem
      (fun r => !(r.id == rid && r.userId == uid)) db hr0 hp0
    simp only [deleteSummaryRoute, deleteManyCount]
    rw [if_neg (by omega)]
  · intro hall
    have hfil : (db.filter fun r => !(r.id == rid && r.userId == uid)) = db := by
      rw [List.filter_eq_self]
      intro r hr
      have hx := hall r hr
      simp
      tauto
    simp only [deleteSummaryRoute, deleteManyCount]
    rw [hfil]
    rw [if_pos (by omega)]
  · intro r hr hnot
    have hroute2 : (deleteSummaryRoute (some uid) db rid).2 =
        db.filter fun r => !(r.id == rid && r.userId == uid) := by
      simp only [deleteSummaryRoute, deleteManyCount]
      split <;> rfl
    rw [hroute2]
    refine List.mem_filter.mpr ⟨hr, ?_⟩
    simp
    tauto

/-- C8 witness: deleting an owned row succeeds and empties the list;
deleting the same id owned by another user answers 404 and leaves the
other user's row in place. -/
theorem c8_delete_owned_witness :
    deleteSummaryRoute (some "u".data) [rowOwned] "i".data = (.success, []) ∧
    deleteSummaryRoute (some "u".data) [rowOther] "i".data =
      (.notFound, [rowOther]) := by
  constructor
  · have h := (c8_delete_owned "u".data "i".data [rowOwned]).1
      ⟨rowOwned, List.mem_singleton.mpr rfl, rfl, rfl⟩
    exact h.trans (by decide)
  · exact (c8_delete_owned "u".data "i".data [rowOther]).2.1 (by decide)

/-- C10: the persisted imageCount is the number of user-uploaded images
when at least one was supplied — even beyond the four actually attached
to the model call — and otherwise the number of auto-rasterized pages,
which never exceeds two; a five-image request stores 5 while attaching
only 4. -/
theorem c10_image_count :
    (∀ env saved st, postSummarize env = (.ok saved, st) →
      (0 < env.imagesCount →
        saved.imageCount = env.imagesCount ∧
        st.attachedImages = min env.imagesCount 4) ∧
      (env.imagesCount = 0 →
        saved.imageCount = st.autoPages ∧ st.autoPages ≤ 2)) ∧
    postSummarize envImages5 = (.ok row5, stats5) ∧
    row5.imageCount = 5 ∧ stats5.attachedImages = 4 := by
  refine ⟨?_, rfl, rfl, rfl⟩
  intro env saved st h
  obtain ⟨uid, auto, parsed, -, -, hs, -, hauto, hle, himauto, hbr⟩ :=
    post_ok_cases env saved st h
  constructor
  · intro hpos
    have hauto0 : auto = 0 := by
      rcases himauto with h0 | h0
      · omega
      · exact h0
    have hic : saved.imageCount = env.imagesCount := by
      rw [hs]
      simp only [mkSaved]
      rw [if_pos hpos]
    rcases hbr with ⟨-, hatt⟩ | ⟨-, -, hic0, -⟩
    · refine ⟨hic, ?_⟩
      rw [hatt, hauto0]
      simp
    · exact absurd hic0 (by omega)
  · intro hzero
    have hic : saved.imageCount = auto := by
      rw [hs]
      simp only [mkSaved]
      rw [if_neg (by omega)]
    exact ⟨by rw [hic, hauto], by rw [hauto]; exact hle⟩

/-- C10 witness: within the five-image request, the stored count is the
full image count while only four were attached. -/
theorem c10_image_count_witness :
    row5.imageCount = envImages5.imagesCount ∧
    stats5.attachedImages = min envImages5.imagesCount 4 :=
  (c10_image_count.1 envImages5 row5 stats5 c10_image_count.2.1).1 (by decide)

end JethLasa
